import Mathlib

/-!
Shallow embedding of the aggregation core of the 42-bot repository.

Human-unit quantities (prices, quantities, PnL, volumes) are modelled as
rationals (`ℚ`); raw token-unit quantities (claim quantities, ledger
delta quantities) are modelled as integers (`ℤ`), matching the source's
use of `bigint`.  JavaScript `Map`s whose reads all go through
`map.get(k) || default` are modelled as total functions with that default.
-/

namespace FortyTwoBot

/-- Is `c` a decimal digit?  Returns its value. -/
def decDigit (c : Char) : Option Nat :=
  if 48 ≤ c.toNat ∧ c.toNat ≤ 57 then some (c.toNat - 48) else none

/-- Parse a string of decimal digits, most significant first. -/
def parseNatAux : List Char → Nat → Option Nat
  | [], acc => some acc
  | c :: cs, acc =>
    match decDigit c with
    | some d => parseNatAux cs (acc * 10 + d)
    | none => none

/-- JS `Number(s)` on the (decimal, non-negative) identifier strings used as
bitmasks: parse as a natural number; anything non-numeric collapses to `0`
(as `NaN & x` does in JS bitwise-and). -/
def jsNumber (s : String) : Nat := (parseNatAux s.data 0).getD 0

/-- `buildClaimKey` from part_007 / part_009: hyphen-joined triple. -/
def buildClaimKey (user market tokenId : String) : String :=
  user ++ "-" ++ market ++ "-" ++ tokenId

/-- The latest outcome-stat snapshot carried on a ledger row
(`outcome.outcome_stats[0]`); both fields are nullable strings in the
GraphQL response, parsed with `parseFloat(x || "0")` at use sites. -/
structure OutcomeStat where
  marginal_price_hmr : Option ℚ
  payout_hmr : Option ℚ
deriving DecidableEq, Repr

/-- One row of the `GetLastPosition` / `GetLastPositionByWallet` queries
(part_007 / part_009): the latest ledger event per (user, market, token).
`stats` is `entry.outcome?.outcome_stats[0]` (absent outcome chain ⇒ none);
`answer` is `question.question_resolves[0]?.answer` (none ⇒ unresolved). -/
structure LastPositionEntry where
  user_address : String
  market_address : String
  token_id : String
  current_quantity_hmr : Option ℚ
  delta_quantity : ℤ
  realized_pnl_hmr : Option ℚ
  block_timestamp : String
  event_type : String
  stats : Option OutcomeStat
  answer : Option Nat
deriving DecidableEq, Repr

/-- `parseFloat(entry.outcome?.outcome_stats[0].marginal_price_hmr || "0")`. -/
def entryPrice (e : LastPositionEntry) : ℚ :=
  (e.stats.bind OutcomeStat.marginal_price_hmr).getD 0

/-- `parseFloat(entry.outcome?.outcome_stats[0].payout_hmr || "0")`. -/
def entryPayout (e : LastPositionEntry) : ℚ :=
  (e.stats.bind OutcomeStat.payout_hmr).getD 0

/-- `parseFloat(entry?.current_quantity_hmr || "0")`. -/
def entryQuantity (e : LastPositionEntry) : ℚ :=
  e.current_quantity_hmr.getD 0

/-- One row of the `GetMarketClaims` queries: a claim record.
`quantity` is a raw-integer-unit string converted via `BigInt(quantity)`. -/
structure ClaimEntry where
  user_address : String
  market_address : String
  token_id : String
  quantity : ℤ
  block_timestamp : String
deriving DecidableEq, Repr

/-- `MarketClaims`: `Record<string, bigint>` read through
`claims?.[key] || BigInt(0)` — a total function with default `0`. -/
def MarketClaims := String → ℤ

/-- The empty claims record `{}`. -/
def emptyClaims : MarketClaims := fun _ => 0

/-- Pointwise update of a default-0 map (JS `claims[key] = v` /
`map.set(k, v)`). -/
def setKey {β : Type} (f : String → β) (k : String) (v : β) : String → β :=
  fun x => if x = k then v else f x

/-- `processClaims` (part_007 lines 196-203 / part_009 lines 363-370):
for each claim entry, `claims[key] = (claims[key] || 0n) + BigInt(quantity)`. -/
def processClaims (claims : MarketClaims) (entries : List ClaimEntry) : MarketClaims :=
  entries.foldl
    (fun claims entry =>
      let key := buildClaimKey entry.user_address entry.market_address entry.token_id
      setKey claims key (claims key + entry.quantity))
    claims

/-- The per-entry body of `processBatch` in part_007 (lines 205-243): folds one
latest-position row into the per-user portfolio map.  Resolved-and-winning rows
add the clamped residual-entitlement value; resolved-and-losing rows add
nothing; unresolved rows add price × quantity. -/
def portfolioStep (claims : MarketClaims) (stats : String → ℚ)
    (e : LastPositionEntry) : String → ℚ :=
  let portfolio := stats e.user_address
  match e.answer with
  | some a =>
    if Nat.land (jsNumber e.token_id) a ≠ 0 then
      let key := buildClaimKey e.user_address e.market_address e.token_id
      let fullClaimWei : ℤ := -e.delta_quantity
      let claimedWei : ℤ := claims key
      let remainingWei : ℤ := fullClaimWei - claimedWei
      if 0 < remainingWei then
        let payoutPerOt := entryPayout e
        let remaining : ℚ := (remainingWei : ℚ) / 10 ^ 18
        setKey stats e.user_address (portfolio + payoutPerOt * remaining)
      else stats
    else stats
  | none =>
    let price := entryPrice e
    let quantity := entryQuantity e
    setKey stats e.user_address (portfolio + price * quantity)

/-- `processBatch` of part_007: fold a page of latest-position rows into the
portfolio leaderboard's `userToStats` map. -/
def portfolioProcessBatch (claims : MarketClaims) (stats : String → ℚ)
    (entries : List LastPositionEntry) : String → ℚ :=
  entries.foldl (portfolioStep claims) stats

/-- A concrete resolved-and-winning latest position: delta −100·10¹⁸ raw units
(gross entitlement 100 human units), payout-per-unit 1. -/
def c1Entry : LastPositionEntry :=
  { user_address := "0xaaa", market_address := "0xmmm", token_id := "1"
    current_quantity_hmr := some 0, delta_quantity := -(100 * 10 ^ 18)
    realized_pnl_hmr := some 0, block_timestamp := "t9", event_type := "finalise"
    stats := some { marginal_price_hmr := some 1, payout_hmr := some 1 }
    answer := some 1 }

/-- A prior claim of 40·10¹⁸ raw units under the same (user, market, token)
key as `c1Entry`. -/
def c1Claims : MarketClaims :=
  setKey emptyClaims (buildClaimKey "0xaaa" "0xmmm" "1") (40 * 10 ^ 18)

/-- A concrete resolved-and-losing latest position: token bitmask `01`,
answer bitmask `10`, held quantity 1000. -/
def c2Entry : LastPositionEntry :=
  { user_address := "0xbbb", market_address := "0xmmm", token_id := "1"
    current_quantity_hmr := some 1000, delta_quantity := 0
    realized_pnl_hmr := some 0, block_timestamp := "t9", event_type := "trade"
    stats := some { marginal_price_hmr := some 1, payout_hmr := some 1 }
    answer := some 2 }

/-- A concrete unresolved latest position: quantity 10 at marginal price
0.40. -/
def c3Entry : LastPositionEntry :=
  { user_address := "0xccc", market_address := "0xmmm", token_id := "2"
    current_quantity_hmr := some 10, delta_quantity := 0
    realized_pnl_hmr := some 0, block_timestamp := "t9", event_type := "trade"
    stats := some { marginal_price_hmr := some (2 / 5), payout_hmr := none }
    answer := none }

/-- Shorthand for the claim key of a claim record. -/
def claimKeyOf (e : ClaimEntry) : String :=
  buildClaimKey e.user_address e.market_address e.token_id

/-! ### Profit (realized-PnL) leaderboard — profit.ts -/

/-- One row of the `GetLastPositionPnl` query (profit.ts): `realized_pnl_hmr`
is read with a bare `parseFloat(realized_pnl_hmr)`. -/
structure PnlLedgerEntry where
  user_address : String
  market_address : String
  token_id : String
  current_quantity_hmr : Option ℚ
  realized_pnl_hmr : ℚ
  block_timestamp : String
  event_type : String
deriving DecidableEq, Repr

/-- The three-granularity PnL leaderboard (profit.ts `PnlLeaderboard`).
JS `Map`s read through `get(k) || 0` / `getOrCreate(…, () => new Map())`
are total functions with default `0` / the zero function. -/
structure PnlLeaderboard where
  userToStats : String → ℚ
  userToMarketToStats : String → String → ℚ
  userToMarketToTokenToStats : String → String → String → ℚ

/-- The empty PnL leaderboard (all three maps freshly created). -/
def emptyPnlLeaderboard : PnlLeaderboard :=
  { userToStats := fun _ => 0
    userToMarketToStats := fun _ _ => 0
    userToMarketToTokenToStats := fun _ _ _ => 0 }

/-- The per-entry body of `processBatch` in profit.ts (lines 98-130): the
user- and user-market-level entries accumulate the row's realized PnL; the
token-level entry is overwritten with it (`tokenToStats.set(token_id, pnl)`). -/
def pnlStep (lb : PnlLeaderboard) (e : PnlLedgerEntry) : PnlLeaderboard :=
  let pnl := e.realized_pnl_hmr
  { userToStats :=
      setKey lb.userToStats e.user_address
        (lb.userToStats e.user_address + pnl)
    userToMarketToStats := fun u =>
      if u = e.user_address then
        setKey (lb.userToMarketToStats u) e.market_address
          (lb.userToMarketToStats u e.market_address + pnl)
      else lb.userToMarketToStats u
    userToMarketToTokenToStats := fun u =>
      if u = e.user_address then fun m =>
        if m = e.market_address then
          setKey (lb.userToMarketToTokenToStats u m) e.token_id pnl
        else lb.userToMarketToTokenToStats u m
      else lb.userToMarketToTokenToStats u }

/-- `processBatch` of profit.ts over a page of ledger rows. -/
def pnlProcessBatch (lb : PnlLeaderboard) (entries : List PnlLedgerEntry) :
    PnlLeaderboard :=
  entries.foldl pnlStep lb

/-! ### Trade volume/quantity (OT) leaderboard — part_008 -/

/-- One row of the `GetTrades` query (part_008): signed human-unit deltas. -/
structure TradeLedgerEntry where
  user_address : String
  market_address : String
  token_id : String
  delta_quantity_hmr : ℚ
  delta_collateral_hmr : ℚ
deriving DecidableEq, Repr

/-- `CumVolQty = [cumVol, cumQty]` (part_008). -/
def CumVolQty := ℚ × ℚ

/-- The three-granularity OT (volume/quantity) leaderboard (part_008). -/
structure OTLeaderboard where
  userToStats : String → ℚ × ℚ
  userToMarketToStats : String → String → ℚ × ℚ
  userToMarketToTokenToStats : String → String → String → ℚ × ℚ

/-- The empty OT leaderboard. -/
def emptyOTLeaderboard : OTLeaderboard :=
  { userToStats := fun _ => (0, 0)
    userToMarketToStats := fun _ _ => (0, 0)
    userToMarketToTokenToStats := fun _ _ _ => (0, 0) }

/-- The per-entry body of `processBatch` in part_008 (lines 92-135):
`volume = |delta_collateral_hmr|`, `quantity = |delta_quantity_hmr|`, and
all three levels — including the token level — accumulate. -/
def otStep (lb : OTLeaderboard) (e : TradeLedgerEntry) : OTLeaderboard :=
  let quantity := |e.delta_quantity_hmr|
  let volume := |e.delta_collateral_hmr|
  { userToStats :=
      setKey lb.userToStats e.user_address
        ((lb.userToStats e.user_address).1 + volume,
         (lb.userToStats e.user_address).2 + quantity)
    userToMarketToStats := fun u =>
      if u = e.user_address then
        setKey (lb.userToMarketToStats u) e.market_address
          ((lb.userToMarketToStats u e.market_address).1 + volume,
           (lb.userToMarketToStats u e.market_address).2 + quantity)
      else lb.userToMarketToStats u
    userToMarketToTokenToStats := fun u =>
      if u = e.user_address then fun m =>
        if m = e.market_address then
          setKey (lb.userToMarketToTokenToStats u m) e.token_id
            ((lb.userToMarketToTokenToStats u m e.token_id).1 + volume,
             (lb.userToMarketToTokenToStats u m e.token_id).2 + quantity)
        else lb.userToMarketToTokenToStats u m
      else lb.userToMarketToTokenToStats u }

/-- `processBatch` of part_008 over a page of trade rows. -/
def otProcessBatch (lb : OTLeaderboard) (entries : List TradeLedgerEntry) :
    OTLeaderboard :=
  entries.foldl otStep lb

/-- The per-row contribution of a trade row to the OT leaderboard:
(|collateral delta|, |quantity delta|). -/
def otContribution (e : TradeLedgerEntry) : ℚ × ℚ :=
  (|e.delta_collateral_hmr|, |e.delta_quantity_hmr|)

/-! ### Paginated fetch loop -/

/-- The `while (hasMore)` offset-pagination loop (part_007 lines 30-50 and
57-83, part_008 lines 30-54, market.ts lines 129-149, part_009): fetch page
at `offset`; an empty page breaks before processing; otherwise the page is
processed, `offset += pageSize`, and a page shorter than `pageSize` clears
`hasMore`, ending the loop.  `fuel` bounds the recursion depth; `none` means
the fuel ran out before the loop finished.  The result is the list of
offsets requested and the concatenation of the processed rows.  (The loop of
profit.ts differs — see `fetchPagesTrue`.) -/
def fetchPages {α : Type} (src : Nat → List α) (pageSize : Nat) :
    Nat → Nat → Option (List Nat × List α)
  | 0, _ => none
  | fuel + 1, offset =>
    let page := src offset
    if page.length = 0 then some ([offset], [])
    else if page.length < pageSize then some ([offset], page)
    else
      match fetchPages src pageSize fuel (offset + pageSize) with
      | none => none
      | some (offsets, rows) => some (offset :: offsets, page ++ rows)

/-- The pagination loop of `buildProfitLeaderboard` (profit.ts lines 30-53):
`while (true)` — `hasMore` is assigned when a page is short but never read,
so the loop exits only when a page comes back empty.  Every non-empty page is
processed and `offset += pageSize` continues the loop, including after a page
shorter than `pageSize`. -/
def fetchPagesTrue {α : Type} (src : Nat → List α) (pageSize : Nat) :
    Nat → Nat → Option (List Nat × List α)
  | 0, _ => none
  | fuel + 1, offset =>
    let page := src offset
    if page.length = 0 then some ([offset], [])
    else
      match fetchPagesTrue src pageSize fuel (offset + pageSize) with
      | none => none
      | some (offsets, rows) => some (offset :: offsets, page ++ rows)

/-- Concrete page source for the pagination theorems: a full page of two rows
at offset 0, a short page of one row at offset 2, and empty pages beyond. -/
def demoPages : Nat → List Nat
  | 0 => [10, 11]
  | 2 => [12]
  | _ => []

/-! ### Single-wallet portfolio — part_009 -/

/-- JS `toLowerCase()` on one ASCII character. -/
def jsCharToLower (c : Char) : Char :=
  if 65 ≤ c.toNat ∧ c.toNat ≤ 90 then Char.ofNat (c.toNat + 32) else c

/-- JS `walletAddress.toLowerCase()` on the ASCII hex addresses used as
keys. -/
def jsToLower (s : String) : String := ⟨s.data.map jsCharToLower⟩

/-- The pure position/claims part of `getWalletPortfolio` (part_009 lines
18-126), with the two paginated queries replaced by filters over the full
claim and ledger tables they page over.  The claim totals are accumulated
under the query-returned (lowercase) `user_address`, while the entitlement
lookup key is built from the caller-supplied `walletAddress` verbatim
(part_009 line 92). -/
def getWalletPortfolioPositions (walletAddress : String)
    (claimTable : List ClaimEntry) (ledgerTable : List LastPositionEntry) : ℚ :=
  let normalizedWalletAddress := jsToLower walletAddress
  let claims := processClaims emptyClaims
    (claimTable.filter
      (fun c => 0 < c.quantity ∧ c.user_address = normalizedWalletAddress))
  let entries := ledgerTable.filter
    (fun e => e.user_address = normalizedWalletAddress)
  entries.foldl
    (fun portfolio e =>
      match e.answer with
      | some a =>
        if Nat.land (jsNumber e.token_id) a ≠ 0 then
          let key := buildClaimKey walletAddress e.market_address e.token_id
          let fullClaimWei : ℤ := -e.delta_quantity
          let claimedWei : ℤ := claims key
          let remainingWei : ℤ := fullClaimWei - claimedWei
          if 0 < remainingWei then
            portfolio + entryPayout e * ((remainingWei : ℚ) / 10 ^ 18)
          else portfolio
        else portfolio
      | none => portfolio + entryPrice e * entryQuantity e)
    0

/-- A prior claim of 40·10¹⁸ raw units, recorded (as the database returns it)
under the lowercase address. -/
def c8Claim : ClaimEntry :=
  { user_address := "0xab", market_address := "0xm", token_id := "1"
    quantity := 40 * 10 ^ 18, block_timestamp := "t1" }

/-- A resolved-and-winning latest position for the same wallet: delta
−100·10¹⁸ raw units, payout-per-unit 1. -/
def c8Ledger : LastPositionEntry :=
  { user_address := "0xab", market_address := "0xm", token_id := "1"
    current_quantity_hmr := some 0, delta_quantity := -(100 * 10 ^ 18)
    realized_pnl_hmr := some 0, block_timestamp := "t9", event_type := "finalise"
    stats := some { marginal_price_hmr := some 1, payout_hmr := some 1 }
    answer := some 1 }

/-! ### Cash-balance reads -/

/-- The cash-balance step of `getWalletPortfolio` (part_009 lines 129-145):
a successful read adds the 6-decimal-scaled balance; a failed read is caught
and adds nothing. -/
def addCashBalance (portfolio : ℚ) (r : Except Unit ℤ) : ℚ :=
  match r with
  | .ok v => portfolio + (v : ℚ) / 10 ^ 6
  | .error _ => portfolio

/-- The multicall-result processing of `buildPortfolioLeaderboard` (part_007
lines 102-118): per (address, result) pair, a successful read adds the
6-decimal-scaled balance to that address's entry; a failed one only warns. -/
def applyBalanceResults (stats : String → ℚ)
    (results : List (String × Except Unit ℤ)) : String → ℚ :=
  results.foldl
    (fun stats p =>
      match p.2 with
      | .ok v => setKey stats p.1 (stats p.1 + (v : ℚ) / 10 ^ 6)
      | .error _ => stats)
    stats

/-- The per-pair cash contribution: the scaled balance on success, zero on
failure. -/
def cashContribution (p : String × Except Unit ℤ) : ℚ :=
  match p.2 with
  | .ok v => (v : ℚ) / 10 ^ 6
  | .error _ => 0

/-! ### Single-wallet positions view — part_009 `getWalletPositions` -/

/-- The record pushed by `getWalletPositions` (part_009 lines 194-206). -/
structure WalletPosition where
  market_address : String
  token_id : String
  quantity : ℚ
  current_price : ℚ
  value : ℚ
  realized_pnl : ℚ
  block_timestamp : String
  event_type : String
  is_resolved : Bool
  is_winning : Bool
  payout_hmr : Option ℚ
deriving DecidableEq, Repr

/-- The record built from one latest-position row (part_009 lines 177-206):
`value = price × quantity` unconditionally, resolved or not. -/
def walletPositionRecord (e : LastPositionEntry) : WalletPosition :=
  let quantity := entryQuantity e
  let price := entryPrice e
  { market_address := e.market_address
    token_id := e.token_id
    quantity := quantity
    current_price := price
    value := price * quantity
    realized_pnl := e.realized_pnl_hmr.getD 0
    block_timestamp := e.block_timestamp
    event_type := e.event_type
    is_resolved := e.answer.isSome
    is_winning :=
      match e.answer with
      | some a => decide (Nat.land (jsNumber e.token_id) a ≠ 0)
      | none => false
    payout_hmr := e.stats.bind OutcomeStat.payout_hmr }

/-- The page-processing loop of `getWalletPositions` (part_009 lines
177-208): rows with zero parsed quantity are skipped, all others are pushed. -/
def getWalletPositionsBatch (entries : List LastPositionEntry) :
    List WalletPosition :=
  entries.foldl
    (fun positions e =>
      if entryQuantity e ≠ 0 then positions ++ [walletPositionRecord e]
      else positions)
    []

/-- A concrete resolved-market latest position with non-zero quantity, for
the positions-view witness. -/
def c10Entry : LastPositionEntry :=
  { user_address := "0xddd", market_address := "0xmmm", token_id := "1"
    current_quantity_hmr := some 5, delta_quantity := 0
    realized_pnl_hmr := some 3, block_timestamp := "t9", event_type := "trade"
    stats := some { marginal_price_hmr := some (1 / 2), payout_hmr := some 1 }
    answer := some 1 }

end FortyTwoBot

namespace FortyTwoBot

/-- **C1** For a latest position in a resolved market whose token bitmask
intersects the answer bitmask, the gross entitlement in raw units is the
negation of the row's `delta_quantity` (exact integer), the remaining
entitlement is that gross entitlement minus the claimed total looked up under
the same (user, market, token) key, and the value added to the user's
portfolio is payout-per-unit × (remaining entitlement / 10¹⁸) when the
remaining entitlement is positive, and exactly zero when it is ≤ 0 (negative
remainders are clamped, never reported and never an error). -/
theorem resolved_winning_position_value (claims : MarketClaims)
    (stats : String → ℚ) (e : LastPositionEntry) (a : Nat)
    (hres : e.answer = some a)
    (hwin : Nat.land (jsNumber e.token_id) a ≠ 0) :
    portfolioProcessBatch claims stats [e] e.user_address =
      stats e.user_address +
        (if 0 < -e.delta_quantity -
              claims (buildClaimKey e.user_address e.market_address e.token_id)
         then entryPayout e *
              (((-e.delta_quantity -
                  claims (buildClaimKey e.user_address e.market_address
                    e.token_id) : ℤ) : ℚ) / 10 ^ 18)
         else 0) := by
  simp only [portfolioProcessBatch, List.foldl, portfolioStep, hres]
  rw [if_pos hwin]
  split_ifs with h
  · simp [setKey]
  · simp

/-- Witness for C1: gross entitlement 100 human units (100·10¹⁸ raw), prior
claim 40·10¹⁸ raw, payout-per-unit 1 ⇒ value 60, starting from an empty
portfolio map. -/
theorem resolved_winning_position_value_witness :
    c1Entry.answer = some 1 ∧ Nat.land (jsNumber c1Entry.token_id) 1 ≠ 0 ∧
      portfolioProcessBatch c1Claims (fun _ => 0) [c1Entry]
        c1Entry.user_address = 60 := by
  refine ⟨rfl, by decide, ?_⟩
  rw [resolved_winning_position_value c1Claims (fun _ => 0) c1Entry 1 rfl
    (by decide)]
  norm_num [c1Entry, c1Claims, entryPayout, buildClaimKey, setKey, emptyClaims]

/-- **C2** For a latest position in a resolved market whose token bitmask has
empty intersection with the answer bitmask (bitwise AND = 0), the position
contributes zero value: the portfolio map is unchanged at every user, for
every quantity held. -/
theorem resolved_losing_position_value (claims : MarketClaims)
    (stats : String → ℚ) (e : LastPositionEntry) (a : Nat) (u : String)
    (hres : e.answer = some a)
    (hlose : Nat.land (jsNumber e.token_id) a = 0) :
    portfolioProcessBatch claims stats [e] u = stats u := by
  simp [portfolioProcessBatch, portfolioStep, hres, hlose]

/-- Witness for C2: answer bitmask `10`, token bitmask `01`, quantity 1000 ⇒
portfolio unchanged (still 0). -/
theorem resolved_losing_position_value_witness :
    c2Entry.answer = some 2 ∧ Nat.land (jsNumber c2Entry.token_id) 2 = 0 ∧
      portfolioProcessBatch emptyClaims (fun _ => 0) [c2Entry]
        c2Entry.user_address = (fun _ => (0 : ℚ)) c2Entry.user_address :=
  ⟨rfl, by decide,
    resolved_losing_position_value emptyClaims (fun _ => 0) c2Entry 2
      c2Entry.user_address rfl (by decide)⟩

/-- **C3** For a latest position in an unresolved market, the value added to
the portfolio equals the latest marginal price × the quantity held, and the
contribution is zero whenever the quantity held is zero. -/
theorem unresolved_position_value (claims : MarketClaims)
    (stats : String → ℚ) (e : LastPositionEntry)
    (hunres : e.answer = none) :
    portfolioProcessBatch claims stats [e] e.user_address =
        stats e.user_address + entryPrice e * entryQuantity e ∧
      (entryQuantity e = 0 →
        portfolioProcessBatch claims stats [e] e.user_address =
          stats e.user_address) := by
  constructor
  · simp [portfolioProcessBatch, portfolioStep, hunres, setKey]
  · intro hq
    simp [portfolioProcessBatch, portfolioStep, hunres, setKey, hq]

/-- Witness for C3: quantity 10 at price 0.40 contributes 4.00. -/
theorem unresolved_position_value_witness :
    c3Entry.answer = none ∧
      portfolioProcessBatch emptyClaims (fun _ => 0) [c3Entry]
          c3Entry.user_address =
        (fun _ => (0 : ℚ)) c3Entry.user_address +
          entryPrice c3Entry * entryQuantity c3Entry ∧
      entryPrice c3Entry * entryQuantity c3Entry = 4 := by
  refine ⟨rfl, ?_, by norm_num [entryPrice, entryQuantity, c3Entry]⟩
  exact (unresolved_position_value emptyClaims (fun _ => 0) c3Entry rfl).1

end FortyTwoBot

namespace FortyTwoBot

lemma processClaims_append (c : MarketClaims) (l₁ l₂ : List ClaimEntry) :
    processClaims c (l₁ ++ l₂) = processClaims (processClaims c l₁) l₂ := by
  simp [processClaims, List.foldl_append]

lemma processClaims_apply (l : List ClaimEntry) :
    ∀ (c : MarketClaims) (k : String),
      processClaims c l k =
        c k + ((l.filter (fun e => claimKeyOf e = k)).map
          ClaimEntry.quantity).sum := by
  induction l with
  | nil => intro c k; simp [processClaims]
  | cons e l ih =>
    intro c k
    simp only [processClaims, List.foldl_cons] at *
    rw [ih]
    by_cases h : buildClaimKey e.user_address e.market_address e.token_id = k
    · subst h
      simp [setKey, claimKeyOf, List.filter_cons, add_assoc]
    · have h' : ¬(k = buildClaimKey e.user_address e.market_address e.token_id) :=
        fun hh => h hh.symm
      simp [setKey, claimKeyOf, List.filter_cons, h, h']

lemma foldl_processClaims_eq_join (batches : List (List ClaimEntry)) :
    ∀ c : MarketClaims,
      batches.foldl processClaims c = processClaims c batches.flatten := by
  induction batches with
  | nil => intro c; simp [processClaims]
  | cons b bs ih => intro c; simp [List.flatten, processClaims_append, ih]

/-- **C5** The Claim Reconciler, run over any finite sequence of claim-record
batches, assigns to each (user, market, token) key the exact integer (ℤ,
modelling `bigint`) sum of the quantities of all claim records with that
key — every claim is summed regardless of timestamp (no latest-wins
selection) — and the result equals processing the concatenation of the
batches in one pass, hence is independent of how the records are split into
batches. -/
theorem claim_reconciler_exact_batch_independent_sum
    (batches : List (List ClaimEntry)) :
    (∀ k : String,
      (batches.foldl processClaims emptyClaims) k =
        ((batches.flatten.filter (fun e => claimKeyOf e = k)).map
          ClaimEntry.quantity).sum) ∧
    batches.foldl processClaims emptyClaims =
      processClaims emptyClaims batches.flatten := by
  refine ⟨fun k => ?_, foldl_processClaims_eq_join batches emptyClaims⟩
  rw [foldl_processClaims_eq_join, processClaims_apply]
  simp [emptyClaims]

lemma sum_ite_key_not_mem {M : Type} [AddCommMonoid M] (x : String) (c : M) :
    ∀ ms : List String, x ∉ ms →
      (ms.map (fun m => if x = m then c else 0)).sum = 0 := by
  intro ms
  induction ms with
  | nil => simp
  | cons m ms ih =>
    intro h
    rw [List.mem_cons, not_or] at h
    simp [h.1, ih h.2]

lemma sum_ite_key_nodup {M : Type} [AddCommMonoid M] (x : String) (c : M) :
    ∀ ms : List String, ms.Nodup → x ∈ ms →
      (ms.map (fun m => if x = m then c else 0)).sum = c := by
  intro ms
  induction ms with
  | nil => intro _ h; exact absurd h (List.not_mem_nil x)
  | cons m ms ih =>
    intro hnd hx
    rcases List.mem_cons.mp hx with h | h
    · subst h
      have hnotmem : x ∉ ms := (List.nodup_cons.mp hnd).1
      simp [sum_ite_key_not_mem x c ms hnotmem]
    · have hne : x ≠ m := by
        rintro rfl
        exact (List.nodup_cons.mp hnd).1 h
      simp [hne, ih (List.nodup_cons.mp hnd).2 h]

lemma sum_over_keys_partition {α M : Type} [AddCommMonoid M]
    (f : α → M) (key : α → String) (ms : List String) :
    ∀ l : List α, ms.Nodup → (∀ e ∈ l, key e ∈ ms) →
      (ms.map (fun m => ((l.filter (fun e => key e = m)).map f).sum)).sum
        = (l.map f).sum := by
  intro l
  induction l with
  | nil => intro _ _; simp
  | cons e l ih =>
    intro hnd hmem
    have he : key e ∈ ms := hmem e (List.mem_cons_self e l)
    have hl : ∀ x ∈ l, key x ∈ ms :=
      fun x hx => hmem x (List.mem_cons_of_mem e hx)
    have step : ∀ m : String,
        (((e :: l).filter (fun x => key x = m)).map f).sum
          = (if key e = m then f e else 0) +
            ((l.filter (fun x => key x = m)).map f).sum := by
      intro m
      by_cases h : key e = m
      · simp [List.filter_cons, h]
      · simp [List.filter_cons, h]
    simp only [step]
    rw [List.sum_map_add, sum_ite_key_nodup (key e) (f e) ms hnd he,
      ih hnd hl]
    simp

lemma pnlProcessBatch_userToStats (es : List PnlLedgerEntry) :
    ∀ (lb : PnlLeaderboard) (u : String),
      (pnlProcessBatch lb es).userToStats u =
        lb.userToStats u +
          ((es.filter (fun e => e.user_address = u)).map
            PnlLedgerEntry.realized_pnl_hmr).sum := by
  induction es with
  | nil => intro lb u; simp [pnlProcessBatch]
  | cons e es ih =>
    intro lb u
    simp only [pnlProcessBatch, List.foldl_cons] at *
    rw [ih]
    by_cases h : e.user_address = u
    · subst h
      simp [pnlStep, setKey, List.filter_cons, add_assoc]
    · have h' : ¬(u = e.user_address) := fun hh => h hh.symm
      simp [pnlStep, setKey, List.filter_cons, h, h']

lemma pnlProcessBatch_userToMarketToStats (es : List PnlLedgerEntry) :
    ∀ (lb : PnlLeaderboard) (u m : String),
      (pnlProcessBatch lb es).userToMarketToStats u m =
        lb.userToMarketToStats u m +
          (((es.filter (fun e => e.user_address = u)).filter
              (fun e => e.market_address = m)).map
            PnlLedgerEntry.realized_pnl_hmr).sum := by
  induction es with
  | nil => intro lb u m; simp [pnlProcessBatch]
  | cons e es ih =>
    intro lb u m
    simp only [pnlProcessBatch, List.foldl_cons] at *
    rw [ih]
    by_cases h1 : e.user_address = u
    · by_cases h2 : e.market_address = m
      · subst h1; subst h2
        simp [pnlStep, setKey, List.filter_cons, add_assoc]
      · subst h1
        have h2' : ¬(m = e.market_address) := fun hh => h2 hh.symm
        simp [pnlStep, setKey, List.filter_cons, h2, h2']
    · have h1' : ¬(u = e.user_address) := fun hh => h1 hh.symm
      simp [pnlStep, setKey, List.filter_cons, h1, h1']

lemma pnlProcessBatch_token (es : List PnlLedgerEntry) :
    ∀ (lb : PnlLeaderboard) (u m t : String),
      (pnlProcessBatch lb es).userToMarketToTokenToStats u m t =
        ((((es.filter (fun e => e.user_address = u)).filter
            (fun e => e.market_address = m)).filter
            (fun e => e.token_id = t)).map
          PnlLedgerEntry.realized_pnl_hmr).getLastD
          (lb.userToMarketToTokenToStats u m t) := by
  induction es with
  | nil => intro lb u m t; simp [pnlProcessBatch]
  | cons e es ih =>
    intro lb u m t
    simp only [pnlProcessBatch, List.foldl_cons] at *
    rw [ih]
    by_cases h1 : e.user_address = u
    · by_cases h2 : e.market_address = m
      · by_cases h3 : e.token_id = t
        · subst h1; subst h2; subst h3
          have hstep : (pnlStep lb e).userToMarketToTokenToStats
              e.user_address e.market_address e.token_id =
                e.realized_pnl_hmr := by
            simp [pnlStep, setKey]
          rw [hstep]
          have hfil :
              (((e :: es).filter
                  (fun x => x.user_address = e.user_address)).filter
                  (fun x => x.market_address = e.market_address)).filter
                  (fun x => x.token_id = e.token_id) =
                e :: (((es.filter
                  (fun x => x.user_address = e.user_address)).filter
                  (fun x => x.market_address = e.market_address)).filter
                  (fun x => x.token_id = e.token_id)) := by
            simp [List.filter_cons]
          rw [hfil, List.map_cons, List.getLastD_cons]
        · subst h1; subst h2
          have h3' : ¬(t = e.token_id) := fun hh => h3 hh.symm
          simp [pnlStep, setKey, List.filter_cons, h3, h3']
      · subst h1
        have h2' : ¬(m = e.market_address) := fun hh => h2 hh.symm
        simp [pnlStep, setKey, List.filter_cons, h2, h2']
    · have h1' : ¬(u = e.user_address) := fun hh => h1 hh.symm
      simp [pnlStep, setKey, List.filter_cons, h1, h1']

lemma otProcessBatch_userToStats (es : List TradeLedgerEntry) :
    ∀ (lb : OTLeaderboard) (u : String),
      (otProcessBatch lb es).userToStats u =
        lb.userToStats u +
          ((es.filter (fun e => e.user_address = u)).map otContribution).sum := by
  induction es with
  | nil => intro lb u; simp [otProcessBatch]
  | cons e es ih =>
    intro lb u
    simp only [otProcessBatch, List.foldl_cons] at *
    rw [ih]
    by_cases h : e.user_address = u
    · subst h
      simp [otStep, setKey, List.filter_cons, otContribution, Prod.ext_iff,
        add_assoc]
    · have h' : ¬(u = e.user_address) := fun hh => h hh.symm
      simp [otStep, setKey, List.filter_cons, h, h']

lemma otProcessBatch_userToMarketToStats (es : List TradeLedgerEntry) :
    ∀ (lb : OTLeaderboard) (u m : String),
      (otProcessBatch lb es).userToMarketToStats u m =
        lb.userToMarketToStats u m +
          (((es.filter (fun e => e.user_address = u)).filter
              (fun e => e.market_address = m)).map otContribution).sum := by
  induction es with
  | nil => intro lb u m; simp [otProcessBatch]
  | cons e es ih =>
    intro lb u m
    simp only [otProcessBatch, List.foldl_cons] at *
    rw [ih]
    by_cases h1 : e.user_address = u
    · by_cases h2 : e.market_address = m
      · subst h1; subst h2
        simp [otStep, setKey, List.filter_cons, otContribution, Prod.ext_iff,
          add_assoc]
      · subst h1
        have h2' : ¬(m = e.market_address) := fun hh => h2 hh.symm
        simp [otStep, setKey, List.filter_cons, h2, h2']
    · have h1' : ¬(u = e.user_address) := fun hh => h1 hh.symm
      simp [otStep, setKey, List.filter_cons, h1, h1']

lemma otProcessBatch_token (es : List TradeLedgerEntry) :
    ∀ (lb : OTLeaderboard) (u m t : String),
      (otProcessBatch lb es).userToMarketToTokenToStats u m t =
        lb.userToMarketToTokenToStats u m t +
          ((((es.filter (fun e => e.user_address = u)).filter
              (fun e => e.market_address = m)).filter
              (fun e => e.token_id = t)).map otContribution).sum := by
  induction es with
  | nil => intro lb u m t; simp [otProcessBatch]
  | cons e es ih =>
    intro lb u m t
    simp only [otProcessBatch, List.foldl_cons] at *
    rw [ih]
    by_cases h1 : e.user_address = u
    · by_cases h2 : e.market_address = m
      · by_cases h3 : e.token_id = t
        · subst h1; subst h2; subst h3
          simp [otStep, setKey, List.filter_cons, otContribution,
            Prod.ext_iff, add_assoc]
        · subst h1; subst h2
          have h3' : ¬(t = e.token_id) := fun hh => h3 hh.symm
          simp [otStep, setKey, List.filter_cons, h3, h3']
      · subst h1
        have h2' : ¬(m = e.market_address) := fun hh => h2 hh.symm
        simp [otStep, setKey, List.filter_cons, h2, h2']
    · have h1' : ¬(u = e.user_address) := fun hh => h1 hh.symm
      simp [otStep, setKey, List.filter_cons, h1, h1']

end FortyTwoBot

namespace FortyTwoBot

/-- **C4** After processing any finite sequence of ledger entries from empty
leaderboards, every user's per-user aggregate equals the sum over that user's
markets (the distinct markets of that user's rows) of the per-user-per-market
sub-aggregates: for realized PnL in the profit leaderboard and — as an
equality of (cumulative-volume, cumulative-quantity) pairs — for both
components in the trade leaderboard. -/
theorem user_aggregate_eq_sum_of_market_subaggregates
    (pnlEntries : List PnlLedgerEntry) (trades : List TradeLedgerEntry)
    (u : String) :
    (pnlProcessBatch emptyPnlLeaderboard pnlEntries).userToStats u =
      (((pnlEntries.filter (fun e => e.user_address = u)).map
          PnlLedgerEntry.market_address).dedup.map
        (fun m =>
          (pnlProcessBatch emptyPnlLeaderboard
              pnlEntries).userToMarketToStats u m)).sum ∧
    (otProcessBatch emptyOTLeaderboard trades).userToStats u =
      (((trades.filter (fun e => e.user_address = u)).map
          TradeLedgerEntry.market_address).dedup.map
        (fun m =>
          (otProcessBatch emptyOTLeaderboard
              trades).userToMarketToStats u m)).sum := by
  constructor
  · have hmap :
        (fun m =>
          (pnlProcessBatch emptyPnlLeaderboard
              pnlEntries).userToMarketToStats u m) =
        (fun m =>
          (((pnlEntries.filter (fun e => e.user_address = u)).filter
              (fun e => e.market_address = m)).map
            PnlLedgerEntry.realized_pnl_hmr).sum) := by
      funext m
      rw [pnlProcessBatch_userToMarketToStats pnlEntries emptyPnlLeaderboard
        u m]
      simp [emptyPnlLeaderboard]
    rw [pnlProcessBatch_userToStats pnlEntries emptyPnlLeaderboard u, hmap,
      sum_over_keys_partition PnlLedgerEntry.realized_pnl_hmr
        PnlLedgerEntry.market_address
        ((pnlEntries.filter (fun e => e.user_address = u)).map
          PnlLedgerEntry.market_address).dedup
        (pnlEntries.filter (fun e => e.user_address = u))
        (List.nodup_dedup _)
        (fun e he => List.mem_dedup.mpr (List.mem_map_of_mem _ he))]
    simp [emptyPnlLeaderboard]
  · have hmap :
        (fun m =>
          (otProcessBatch emptyOTLeaderboard trades).userToMarketToStats
            u m) =
        (fun m =>
          (((trades.filter (fun e => e.user_address = u)).filter
              (fun e => e.market_address = m)).map otContribution).sum) := by
      funext m
      rw [otProcessBatch_userToMarketToStats trades emptyOTLeaderboard u m]
      simp [emptyOTLeaderboard, Prod.mk_zero_zero]
    rw [otProcessBatch_userToStats trades emptyOTLeaderboard u, hmap,
      sum_over_keys_partition otContribution TradeLedgerEntry.market_address
        ((trades.filter (fun e => e.user_address = u)).map
          TradeLedgerEntry.market_address).dedup
        (trades.filter (fun e => e.user_address = u))
        (List.nodup_dedup _)
        (fun e he => List.mem_dedup.mpr (List.mem_map_of_mem _ he))]
    simp [emptyOTLeaderboard, Prod.mk_zero_zero]

/-- **C6** At the finest granularity, starting from empty leaderboards, the
token-level entry for a (user, market, token) key is: in the PnL leaderboard
the realized PnL of the *last* row processed for that key (each row
overwrites; default 0 when no row matches), and in the volume/quantity
leaderboard the *sum* over all rows for that key of the
(|collateral delta|, |quantity delta|) contributions (accumulation). -/
theorem token_level_overwrite_vs_accumulate
    (pnlEntries : List PnlLedgerEntry) (trades : List TradeLedgerEntry)
    (u m t : String) :
    (pnlProcessBatch emptyPnlLeaderboard
        pnlEntries).userToMarketToTokenToStats u m t =
      ((((pnlEntries.filter (fun e => e.user_address = u)).filter
          (fun e => e.market_address = m)).filter
          (fun e => e.token_id = t)).map
        PnlLedgerEntry.realized_pnl_hmr).getLastD 0 ∧
    (otProcessBatch emptyOTLeaderboard
        trades).userToMarketToTokenToStats u m t =
      ((((trades.filter (fun e => e.user_address = u)).filter
          (fun e => e.market_address = m)).filter
          (fun e => e.token_id = t)).map otContribution).sum := by
  constructor
  · rw [pnlProcessBatch_token pnlEntries emptyPnlLeaderboard u m t]
    simp [emptyPnlLeaderboard]
  · rw [otProcessBatch_token trades emptyOTLeaderboard u m t]
    simp [emptyOTLeaderboard, Prod.mk_zero_zero]

end FortyTwoBot

namespace FortyTwoBot

lemma fetchPages_spec {α : Type} (src : Nat → List α) (N : Nat) (hN : 1 ≤ N) :
    ∀ (k fuel start : Nat), k + 1 ≤ fuel →
      (src ((start + k) * N)).length < N →
      (∀ j, start ≤ j → j < start + k → N ≤ (src (j * N)).length) →
      fetchPages src N fuel (start * N) =
        some ((List.range' start (k + 1)).map (fun j => j * N),
          ((List.range' start (k + 1)).map (fun j => src (j * N))).flatten) := by
  intro k
  induction k with
  | zero =>
    intro fuel start hfuel hshort _
    cases fuel with
    | zero => omega
    | succ f =>
      rw [Nat.add_zero] at hshort
      simp only [fetchPages]
      by_cases hz : (src (start * N)).length = 0
      · have hempty : src (start * N) = [] := List.length_eq_zero.mp hz
        simp [hz, hempty, List.range']
      · simp [hz, hshort, List.range']
  | succ k ih =>
    intro fuel start hfuel hshort hfull
    cases fuel with
    | zero => omega
    | succ f =>
      have hlen : N ≤ (src (start * N)).length :=
        hfull start (le_refl start) (by omega)
      have hz : ¬((src (start * N)).length = 0) := by omega
      have hlt : ¬((src (start * N)).length < N) := by omega
      have hshort' : (src ((start + 1 + k) * N)).length < N := by
        have harith : start + 1 + k = start + (k + 1) := by omega
        rw [harith]; exact hshort
      have hrec := ih f (start + 1) (by omega) hshort'
        (fun j hj1 hj2 => hfull j (by omega) (by omega))
      simp only [fetchPages]
      rw [if_neg hz, if_neg hlt,
        show start * N + N = (start + 1) * N from by ring, hrec]
      simp [List.range'_succ]

lemma fetchPagesTrue_spec {α : Type} (src : Nat → List α) (N : Nat) :
    ∀ (m fuel start : Nat), m + 1 ≤ fuel →
      src ((start + m) * N) = [] →
      (∀ j, start ≤ j → j < start + m → src (j * N) ≠ []) →
      fetchPagesTrue src N fuel (start * N) =
        some ((List.range' start (m + 1)).map (fun j => j * N),
          ((List.range' start (m + 1)).map (fun j => src (j * N))).flatten) := by
  intro m
  induction m with
  | zero =>
    intro fuel start hfuel hempty _
    cases fuel with
    | zero => omega
    | succ f =>
      rw [Nat.add_zero] at hempty
      simp only [fetchPagesTrue]
      simp [hempty, List.range']
  | succ m ih =>
    intro fuel start hfuel hempty hne
    cases fuel with
    | zero => omega
    | succ f =>
      have hz : ¬((src (start * N)).length = 0) := by
        intro h0
        exact hne start (le_refl start) (by omega) (List.length_eq_zero.mp h0)
      have hempty' : src ((start + 1 + m) * N) = [] := by
        have harith : start + 1 + m = start + (m + 1) := by omega
        rw [harith]; exact hempty
      have hrec := ih f (start + 1) (by omega) hempty'
        (fun j hj1 hj2 => hne j (by omega) (by omega))
      simp only [fetchPagesTrue]
      rw [if_neg hz,
        show start * N + N = (start + 1) * N from by ring, hrec]
      simp [List.range'_succ]

/-- Counterexample to C7 as stated: the pagination loop of profit.ts
`buildProfitLeaderboard` (one of the claim's cited sources) is `while (true)`
and exits only on an empty page.  With page size 2 and pages `[10, 11]`
(full) at offset 0, `[12]` (short, non-empty) at offset 2 and `[]` beyond,
it requests offsets 0, 2 *and 4* — it does not stop after the first page
with fewer than N rows, and the offsets requested are not exactly
0, N, …, kN (here `[0, 2]`). -/
theorem profit_fetch_requests_offset_past_short_page :
    fetchPagesTrue demoPages 2 3 0 = some ([0, 2, 4], [10, 11, 12]) ∧
      fetchPagesTrue demoPages 2 3 0 ≠ some ([0, 2], [10, 11, 12]) := by
  constructor
  · decide
  · decide

/-- **C7** (amended) For every page size N ≥ 1: the `while (hasMore)` fetch
loops (part_007, part_008, market.ts, part_009), when page k is the first
with fewer than N rows, terminate having requested pages at exactly the
offsets 0, N, …, kN in order and processed exactly the concatenation of the
fetched pages (each row once); the `while (true)` loop of profit.ts exits
only on an empty page: when page m is the first empty one — one past a short
non-empty final page — it terminates having requested exactly the offsets
0, N, …, mN in order and likewise processed every fetched row exactly once;
in both loops an empty first page is the sole page requested and yields zero
total rows processed. -/
theorem paginated_fetch_requests_and_rows {α : Type} (src : Nat → List α)
    (N fuel : Nat) (hN : 1 ≤ N) :
    (∀ k, k + 1 ≤ fuel → (src (k * N)).length < N →
      (∀ j, j < k → N ≤ (src (j * N)).length) →
      fetchPages src N fuel 0 =
        some ((List.range (k + 1)).map (fun j => j * N),
          ((List.range (k + 1)).map (fun j => src (j * N))).flatten)) ∧
    (∀ m, m + 1 ≤ fuel → src (m * N) = [] →
      (∀ j, j < m → src (j * N) ≠ []) →
      fetchPagesTrue src N fuel 0 =
        some ((List.range (m + 1)).map (fun j => j * N),
          ((List.range (m + 1)).map (fun j => src (j * N))).flatten)) ∧
    (1 ≤ fuel → src 0 = [] →
      fetchPages src N fuel 0 = some ([0], []) ∧
      fetchPagesTrue src N fuel 0 = some ([0], [])) := by
  refine ⟨fun k hfuel hshort hfirst => ?_, fun m hfuel hempty hne => ?_,
    fun hfuel hempty0 => ?_⟩
  · have h := fetchPages_spec src N hN k fuel 0 hfuel
      (by simpa using hshort) (fun j hj1 hj2 => hfirst j (by omega))
    rw [show (0 : Nat) * N = 0 from by ring] at h
    rw [h, List.range_eq_range']
  · have h := fetchPagesTrue_spec src N m fuel 0 hfuel
      (by simpa using hempty) (fun j hj1 hj2 => hne j (by omega))
    rw [show (0 : Nat) * N = 0 from by ring] at h
    rw [h, List.range_eq_range']
  · cases fuel with
    | zero => omega
    | succ f =>
      constructor
      · simp only [fetchPages]
        simp [hempty0]
      · simp only [fetchPagesTrue]
        simp [hempty0]

/-- Witness for C7 (amended): with N = 2 over `demoPages` — `[10, 11]` at
offset 0, short `[12]` at offset 2, empty beyond — the `while (hasMore)`
loop requests offsets 0, 2 and the `while (true)` loop of profit.ts requests
offsets 0, 2, 4, both processing the three rows exactly once. -/
theorem paginated_fetch_requests_and_rows_witness :
    (1 ≤ 2 ∧ (demoPages (1 * 2)).length < 2 ∧ demoPages (2 * 2) = []) ∧
      fetchPages demoPages 2 3 0 = some ([0, 2], [10, 11, 12]) ∧
      fetchPagesTrue demoPages 2 3 0 = some ([0, 2, 4], [10, 11, 12]) := by
  have h := paginated_fetch_requests_and_rows demoPages 2 3 (by decide)
  refine ⟨⟨by decide, by decide, by decide⟩, ?_, ?_⟩
  · have h1 := h.1 1 (by decide) (by decide)
      (fun j hj => by
        have hj0 : j = 0 := by omega
        subst hj0
        decide)
    rw [h1]
    decide
  · have h2 := h.2.1 2 (by decide) (by decide)
      (fun j hj => by
        interval_cases j <;> decide)
    rw [h2]
    decide

end FortyTwoBot

namespace FortyTwoBot

/-- **C8** (refuting evaluation) The single-wallet portfolio computation is
*not* case-insensitive in the caller-supplied address: with one prior claim
of 40·10¹⁸ raw units recorded under the lowercase address and one winning
resolved position of gross entitlement 100·10¹⁸ raw units at payout 1, the
lowercase call finds the claim and returns 60, while the mixed-case call
builds its entitlement-lookup key from the unnormalized caller address
(part_009 line 92), misses the claim total, and returns 100. -/
theorem wallet_portfolio_case_sensitivity_divergence :
    getWalletPortfolioPositions "0xab" [c8Claim] [c8Ledger] = 60 ∧
      getWalletPortfolioPositions "0xAB" [c8Claim] [c8Ledger] = 100 := by
  have hlow1 : jsToLower "0xab" = "0xab" := by decide
  have hlow2 : jsToLower "0xAB" = "0xab" := by decide
  have hland : Nat.land (jsNumber "1") 1 ≠ 0 := by decide
  have hclaims1 :
      processClaims emptyClaims
          [{ user_address := "0xab", market_address := "0xm", token_id := "1",
             quantity := 40000000000000000000, block_timestamp := "t1" }]
          (buildClaimKey "0xab" "0xm" "1") = 40000000000000000000 := by decide
  have hclaims2 :
      processClaims emptyClaims
          [{ user_address := "0xab", market_address := "0xm", token_id := "1",
             quantity := 40000000000000000000, block_timestamp := "t1" }]
          (buildClaimKey "0xAB" "0xm" "1") = 0 := by decide
  constructor
  · simp only [getWalletPortfolioPositions, hlow1]
    norm_num [c8Claim, c8Ledger, List.filter_cons, List.filter_nil,
      List.foldl, hclaims1, hland, entryPayout]
  · simp only [getWalletPortfolioPositions, hlow2]
    norm_num [c8Claim, c8Ledger, List.filter_cons, List.filter_nil,
      List.foldl, hclaims2, hland, entryPayout]

end FortyTwoBot

namespace FortyTwoBot

lemma applyBalanceResults_apply (results : List (String × Except Unit ℤ)) :
    ∀ (stats : String → ℚ) (u : String),
      applyBalanceResults stats results u =
        stats u + ((results.filter (fun p => p.1 = u)).map
          cashContribution).sum := by
  induction results with
  | nil => intro stats u; simp [applyBalanceResults]
  | cons p ps ih =>
    intro stats u
    obtain ⟨addr, r⟩ := p
    simp only [applyBalanceResults, List.foldl_cons] at *
    cases r with
    | ok v =>
      rw [ih]
      by_cases h : addr = u
      · subst h
        simp [setKey, List.filter_cons, cashContribution, add_assoc]
      · have h' : ¬(u = addr) := fun hh => h hh.symm
        simp [setKey, List.filter_cons, cashContribution, h, h']
    | error e =>
      rw [ih]
      by_cases h : addr = u
      · subst h
        simp [List.filter_cons, cashContribution]
      · simp [List.filter_cons, cashContribution, h]

/-- **C9** Balance-read failures degrade gracefully: the leaderboard cash
pass maps each address to its prior accumulated value plus the sum of that
address's own read results only — so a failed read contributes exactly zero,
leaves the position-derived value unmodified, and one address's failure
never affects any other address — and the single-wallet cash step returns
the accumulated portfolio unchanged on a failed read. -/
theorem balance_read_failure_degrades_gracefully
    (stats : String → ℚ) (results : List (String × Except Unit ℤ))
    (u : String) :
    applyBalanceResults stats results u =
      stats u + ((results.filter (fun p => p.1 = u)).map
        cashContribution).sum ∧
    (∀ a : String, cashContribution (a, Except.error ()) = 0) ∧
    (∀ p : ℚ, addCashBalance p (Except.error ()) = p) :=
  ⟨applyBalanceResults_apply results stats u, fun _ => rfl, fun _ => rfl⟩

lemma getWalletPositionsBatch_mem (entries : List LastPositionEntry) :
    ∀ (acc : List WalletPosition) (p : WalletPosition),
      p ∈ entries.foldl
        (fun positions e =>
          if entryQuantity e ≠ 0 then positions ++ [walletPositionRecord e]
          else positions) acc →
      p ∈ acc ∨
        ∃ e ∈ entries, entryQuantity e ≠ 0 ∧ p = walletPositionRecord e := by
  induction entries with
  | nil => intro acc p hp; exact Or.inl hp
  | cons e es ih =>
    intro acc p hp
    simp only [List.foldl_cons] at hp
    rcases ih _ p hp with h | ⟨e', he', hq', rfl⟩
    · by_cases hq : entryQuantity e ≠ 0
      · rw [if_pos hq] at h
        rcases List.mem_append.mp h with h' | h'
        · exact Or.inl h'
        · refine Or.inr ⟨e, List.mem_cons_self e es, hq, ?_⟩
          simpa using h'
      · rw [if_neg hq] at h
        exact Or.inl h
    · exact Or.inr ⟨e', List.mem_cons_of_mem e he', hq', rfl⟩

/-- **C10** Every record returned by the single-wallet positions view has a
non-zero quantity (zero-quantity latest positions are filtered out), and its
`value` field equals the latest marginal price times the quantity held —
including for resolved markets, where no residual-entitlement valuation is
applied to this field. -/
theorem wallet_positions_nonzero_and_price_times_quantity
    (entries : List LastPositionEntry) (p : WalletPosition)
    (hp : p ∈ getWalletPositionsBatch entries) :
    p.quantity ≠ 0 ∧ p.value = p.current_price * p.quantity := by
  rcases getWalletPositionsBatch_mem entries [] p hp with h | ⟨e, _, hq, rfl⟩
  · simp at h
  · exact ⟨hq, rfl⟩

/-- Witness for C10: a resolved-market position with quantity 5 at price 0.5
is returned, has non-zero quantity, and is valued at price × quantity (2.5),
not by residual entitlement. -/
theorem wallet_positions_nonzero_and_price_times_quantity_witness :
    walletPositionRecord c10Entry ∈ getWalletPositionsBatch [c10Entry] ∧
      (walletPositionRecord c10Entry).quantity ≠ 0 ∧
      (walletPositionRecord c10Entry).value =
        (walletPositionRecord c10Entry).current_price *
          (walletPositionRecord c10Entry).quantity ∧
      (walletPositionRecord c10Entry).is_resolved = true ∧
      (walletPositionRecord c10Entry).value = 5 / 2 := by
  have hmem : walletPositionRecord c10Entry ∈ getWalletPositionsBatch
      [c10Entry] := by
    norm_num [getWalletPositionsBatch, entryQuantity, c10Entry, List.foldl]
  have h := wallet_positions_nonzero_and_price_times_quantity [c10Entry]
    (walletPositionRecord c10Entry) hmem
  refine ⟨hmem, h.1, h.2, rfl, ?_⟩
  norm_num [walletPositionRecord, entryPrice, entryQuantity, c10Entry]

end FortyTwoBot
